import Mathlib

/-!
Verification development for the BEARDOWN-TP protocol implementation
(`protocol.py`, `beardown_sender_student.py`, `beardown_receiver_student.py`,
`TestHarness.py`).

Byte strings are modelled as `List Nat` together with the predicate that every
element is `< 256`; Python's arbitrary-precision integers are modelled as `Nat`
(or `Int` where Python's `%` on possibly-negative values matters, since
Python's `%` with a positive modulus agrees with `Int.emod`).  Python `float`
values are modelled as exact rationals (`ℚ`); the only non-rational operation,
`** 0.5` in `TimeoutManager._update_timeout`, is modelled by an abstract
square-root parameter `sqrtA : ℚ → ℚ`, which the clamp-style theorems hold for
uniformly.  A Python function that raises is modelled with `Except String`.
-/

/-- Python's `(~s) & 0xFFFF` for a nonnegative `s` (used at the end of
`InternetChecksum.calculate`): `~s = -s-1`, and masking with `0xFFFF` gives
`65535 - s % 65536`. -/
def pyNot16 (s : Nat) : Nat := 65535 - s % 65536

/-- The word summation loop of `InternetChecksum.calculate`:
`for i in range(0, len(data), 2): word = (data[i] << 8) | data[i+1]; sum += word`.
The singleton case is unreachable from `calculate`, which pads its input to
even length first. -/
def wordSum : List Nat → Nat
  | [] => 0
  | [a] => a <<< 8
  | a :: b :: rest => ((a <<< 8) ||| b) + wordSum rest

/-- One pass of the end-around carry loop of `InternetChecksum.calculate`
(`while (sum >> 16) > 0: sum = (sum & 0xFFFF) + (sum >> 16)`), with explicit
fuel: every iteration strictly decreases the accumulator, so the starting
accumulator itself bounds the iteration count and the fuelled recursion
computes the loop's exact fixpoint (see `foldCarryAux_shiftRight`). -/
def foldCarryAux : Nat → Nat → Nat
  | 0, s => s
  | fuel + 1, s =>
    if s >>> 16 > 0 then foldCarryAux fuel ((s &&& 0xFFFF) + (s >>> 16)) else s

/-- The end-around carry loop of `InternetChecksum.calculate`. -/
def foldCarry (s : Nat) : Nat := foldCarryAux s s

theorem foldCarryAux_shiftRight (fuel : Nat) :
    ∀ s, s ≤ fuel → (foldCarryAux fuel s) >>> 16 = 0 := by
  induction fuel with
  | zero =>
    intro s hs
    rw [foldCarryAux]
    omega
  | succ fuel ih =>
    intro s hs
    rw [foldCarryAux]
    split
    · next h =>
      refine ih _ ?_
      have h2 : s &&& 0xFFFF = s % 2 ^ 16 := Nat.and_pow_two_sub_one_eq_mod s 16
      rw [h2]
      simp only [Nat.shiftRight_eq_div_pow] at h ⊢
      omega
    · next h => omega

theorem foldCarry_le (s : Nat) : foldCarry s ≤ 65535 := by
  have h := foldCarryAux_shiftRight s s (Nat.le_refl s)
  rw [foldCarry]
  simp only [Nat.shiftRight_eq_div_pow] at h
  omega

theorem foldCarryAux_mod (fuel : Nat) :
    ∀ s, foldCarryAux fuel s % 65535 = s % 65535 := by
  induction fuel with
  | zero => intro s; rw [foldCarryAux]
  | succ fuel ih =>
    intro s
    rw [foldCarryAux]
    split
    · rw [ih]
      have h2 : s &&& 0xFFFF = s % 2 ^ 16 := Nat.and_pow_two_sub_one_eq_mod s 16
      rw [h2]
      simp only [Nat.shiftRight_eq_div_pow]
      omega
    · rfl

theorem foldCarry_mod (s : Nat) : foldCarry s % 65535 = s % 65535 :=
  foldCarryAux_mod s s

/-- `InternetChecksum.calculate`: pad to even length with a zero byte, sum the
16-bit big-endian words, fold the carries end-around, return the masked
complement. -/
def calculate (data : List Nat) : Nat :=
  pyNot16 (foldCarry (wordSum (if data.length % 2 = 1 then data ++ [0] else data)))

theorem calculate_lt (data : List Nat) : calculate data < 65536 := by
  unfold calculate pyNot16
  omega

theorem pyNot16_inj (a b : Nat) (ha : a ≤ 65535) (hb : b ≤ 65535)
    (h : pyNot16 a = pyNot16 b) : a = b := by
  unfold pyNot16 at h
  omega

/-- For a genuine byte `b`, the word recomposition `(a <<< 8) ||| b` is plain
positional arithmetic. -/
theorem shiftLeft_or_byte (a b : Nat) (hb : b < 256) : (a <<< 8) ||| b = a * 256 + b := by
  rw [Nat.shiftLeft_eq, Nat.mul_comm a (2 ^ 8),
    ← Nat.mul_add_lt_is_or (by omega : b < 2 ^ 8) a]

theorem wordSum_cons (a b : Nat) (rest : List Nat) (hb : b < 256) :
    wordSum (a :: b :: rest) = a * 256 + b + wordSum rest := by
  rw [wordSum, shiftLeft_or_byte a b hb]

/-- Changing the byte at position `i` of an even-length byte string from its
old value to `v` changes the word sum by the weighted difference of the two
bytes (weight 256 at even positions, 1 at odd positions). -/
theorem wordSum_set (l : List Nat) (hb : ∀ x ∈ l, x < 256) (hl : l.length % 2 = 0) :
    ∀ i, i < l.length → ∀ v, v < 256 →
      wordSum (l.set i v) + l.getD i 0 * 2 ^ (if i % 2 = 0 then 8 else 0)
        = wordSum l + v * 2 ^ (if i % 2 = 0 then 8 else 0) := by
  induction l using wordSum.induct with
  | case1 => intro i hi; simp at hi
  | case2 a => simp at hl
  | case3 a b rest ih =>
    have hbb : b < 256 := hb b (by simp)
    have hrest : ∀ x ∈ rest, x < 256 := fun x hx => hb x (by simp [hx])
    have hlen : rest.length % 2 = 0 := by simp at hl; omega
    intro i hi v hv
    match i with
    | 0 =>
      simp only [List.set]
      rw [wordSum_cons a b rest hbb, wordSum_cons v b rest hbb]
      simp only [List.getD, List.get?, Nat.mod_self]
      norm_num
      omega
    | 1 =>
      simp only [List.set]
      rw [wordSum_cons a b rest hbb, wordSum_cons a v rest hv]
      simp only [List.getD, List.get?]
      norm_num
      omega
    | (j + 2) =>
      simp only [List.set]
      rw [wordSum_cons a b rest hbb, wordSum_cons a b (rest.set j v) hbb]
      have hj : j < rest.length := by simp at hi; omega
      have := ih hrest hlen j hj v hv
      have hgd : (a :: b :: rest).getD (j + 2) 0 = rest.getD j 0 := by
        simp [List.getD]
      rw [hgd]
      have hmod : (j + 2) % 2 = j % 2 := by omega
      rw [hmod]
      omega

/-- Flip bit `k` of the byte at position `pos` (Python
`packet_list[pos] ^= (1 << k)`). -/
def flipBit (p : List Nat) (pos k : Nat) : List Nat :=
  p.set pos (p.getD pos 0 ^^^ (1 <<< k))

/-- Flipping one bit of one byte of a byte string always changes the Internet
checksum: the word sum changes by a weighted power of two, which is nonzero
modulo 65535 because `2^j` for `j < 16` is, and `foldCarry` preserves the
value modulo 65535 while mapping into `[0, 65535]`. -/
theorem calculate_flip_ne (l : List Nat) (hb : ∀ x ∈ l, x < 256)
    (pos : Nat) (hpos : pos < l.length) (k : Nat) (hk : k < 8) :
    calculate (flipBit l pos k) ≠ calculate l := by
  set b := l.getD pos 0 with hbdef
  have hbb : b < 256 := by
    rw [hbdef, List.getD_eq_getElem l 0 hpos]
    exact hb _ (List.getElem_mem hpos)
  set v := b ^^^ (1 <<< k) with hvdef
  have hvlt : v < 256 := by
    rw [hvdef, Nat.one_shiftLeft]
    exact Nat.xor_lt_two_pow (n := 8) (by omega)
      (Nat.pow_lt_pow_right (by omega) hk)
  have hvne : v ≠ b := by
    intro h
    rw [hvdef] at h
    nth_rewrite 2 [show b = b ^^^ 0 by rw [Nat.xor_zero]] at h
    have := Nat.xor_right_inj.mp h
    rw [Nat.one_shiftLeft] at this
    exact absurd this (Nat.pos_iff_ne_zero.mp (Nat.pos_pow_of_pos k (by omega)))
  -- move to the padded even-length list
  set d := if l.length % 2 = 1 then l ++ [0] else l with hddef
  have hdb : ∀ x ∈ d, x < 256 := by
    rw [hddef]; split
    · intro x hx
      rcases List.mem_append.mp hx with h | h
      · exact hb x h
      · simp at h; omega
    · exact hb
  have hdlen : d.length % 2 = 0 := by
    rw [hddef]; split
    · simp; omega
    · omega
  have hdpos : pos < d.length := by
    rw [hddef]; split
    · simp; omega
    · exact hpos
  have hdget : d.getD pos 0 = b := by
    rw [hddef, hbdef]; split
    · have hp : pos < (l ++ [0]).length := by simp; omega
      rw [List.getD_eq_getElem _ 0 hp, List.getD_eq_getElem l 0 hpos]
      exact List.getElem_append_left hpos
    · rfl
  have hdset : (if (flipBit l pos k).length % 2 = 1
        then flipBit l pos k ++ [0] else flipBit l pos k) = d.set pos v := by
    rw [flipBit, ← hbdef, ← hvdef, hddef]
    simp only [List.length_set]
    split
    · rw [List.set_append_left _ _ hpos]
    · rfl
  intro heq
  unfold calculate at heq
  rw [hdset, ← hddef] at heq
  have h1 : foldCarry (wordSum (d.set pos v)) = foldCarry (wordSum d) :=
    pyNot16_inj _ _ (foldCarry_le _) (foldCarry_le _) heq
  have h2 : wordSum (d.set pos v) % 65535 = wordSum d % 65535 := by
    rw [← foldCarry_mod, ← foldCarry_mod (wordSum d), h1]
  have h3 := wordSum_set d hdb hdlen pos hdpos v hvlt
  rw [hdget] at h3
  -- cancel the common word sum and the coprime weight
  set p2 := 2 ^ (if pos % 2 = 0 then 8 else 0) with hp2
  have hcop : Nat.gcd 65535 p2 = 1 := by
    rw [hp2]; split <;> decide
  have hmeq : Nat.ModEq 65535 (wordSum (d.set pos v) + b * p2) (wordSum d + b * p2) :=
    Nat.ModEq.add_right _ h2
  rw [h3] at hmeq
  have hcan : Nat.ModEq 65535 (v * p2) (b * p2) := by
    have := Nat.ModEq.add_left_cancel' (wordSum d) hmeq
    exact this
  have hvb : Nat.ModEq 65535 v b := Nat.ModEq.cancel_right_of_coprime hcop hcan
  have : v = b := by
    have h := hvb
    unfold Nat.ModEq at h
    rw [Nat.mod_eq_of_lt (by omega), Nat.mod_eq_of_lt (by omega)] at h
    exact h
  exact hvne this

/-- Python's `format(n, '04x')` as used in the checksum-mismatch message:
lowercase hex, zero-padded on the left to width 4. -/
def hex4 (n : Nat) : String :=
  let ds := Nat.toDigits 16 n
  String.mk (List.replicate (4 - ds.length) '0' ++ ds)

/-- `struct.pack('!BBBHH', seq_num & 0xFF, ack_num & 0xFF, flags & 0xFF,
length, checksum)`: three masked bytes followed by two big-endian 16-bit
fields.  Both `create_packet` call sites satisfy `length ≤ 1000` and
`checksum < 65536` (otherwise `struct.pack` itself would fault). -/
def packHeader (seq_num ack_num flags length checksum : Nat) : List Nat :=
  [seq_num &&& 0xFF, ack_num &&& 0xFF, flags &&& 0xFF,
   length / 256, length % 256, checksum / 256, checksum % 256]

/-- `PacketStructure.create_packet`: the oversized-payload `ValueError` is
modelled as `Except.error`. -/
def create_packet (seq_num ack_num flags : Nat) (data : List Nat) :
    Except String (List Nat) :=
  if data.length > 1000 then
    Except.error ("Payload size " ++ toString data.length ++ " exceeds maximum 1000")
  else
    Except.ok (packHeader seq_num ack_num flags data.length
        (calculate (packHeader seq_num ack_num flags data.length 0 ++ data))
      ++ data)

/-- `PacketStructure.parse_packet`: its `ValueError`s are modelled as
`Except.error`; `struct.unpack('!BBBHH', packet[:7])` recomposes the two
big-endian 16-bit fields from their bytes. -/
def parse_packet (packet : List Nat) :
    Except String (Nat × Nat × Nat × Nat × List Nat × Nat) :=
  if packet.length < 7 then
    Except.error ("Packet too short: " ++ toString packet.length ++ " < 7")
  else
    let length := packet.getD 3 0 * 256 + packet.getD 4 0
    let data := packet.drop 7
    if data.length ≠ length then
      Except.error ("Data length mismatch: expected " ++ toString length
        ++ ", got " ++ toString data.length)
    else
      Except.ok (packet.getD 0 0, packet.getD 1 0, packet.getD 2 0, length,
        data, packet.getD 5 0 * 256 + packet.getD 6 0)

/-- `PacketStructure.validate_packet`: always returns a `(bool, reason)` pair;
the `try/except` wrapper in the source is unreachable because the length is
checked before unpacking. -/
def validate_packet (packet : List Nat) : Bool × String :=
  if packet.length < 7 then
    (false, "Packet too short: " ++ toString packet.length ++ " bytes")
  else
    let length := packet.getD 3 0 * 256 + packet.getD 4 0
    let checksum := packet.getD 5 0 * 256 + packet.getD 6 0
    let expected_total_size := 7 + length
    if packet.length ≠ expected_total_size then
      (false, "Length mismatch: packet " ++ toString packet.length
        ++ " vs expected " ++ toString expected_total_size)
    else
      let calculated_checksum := calculate (packet.take 5 ++ [0, 0] ++ packet.drop 7)
      if calculated_checksum ≠ checksum then
        (false, "Checksum mismatch: expected " ++ hex4 checksum
          ++ ", got " ++ hex4 calculated_checksum)
      else
        (true, "")

theorem packHeader_append_length (s a f l c : Nat) (data : List Nat) :
    (packHeader s a f l c ++ data).length = 7 + data.length := by
  simp [packHeader]
  omega

theorem set_append_seven (s a f l c : Nat) (data : List Nat) (i v : Nat) :
    (packHeader s a f l c ++ data).set (7 + i) v = packHeader s a f l c ++ data.set i v := by
  rw [List.set_append_right _ _ (by simp [packHeader])]
  congr 1
  simp [packHeader]

theorem getD_append_seven (s a f l c : Nat) (data : List Nat) (i : Nat) :
    (packHeader s a f l c ++ data).getD (7 + i) 0 = data.getD i 0 := by
  simp only [List.getD_eq_getElem?_getD]
  rw [List.getElem?_append_right (by simp [packHeader])]
  congr 2
  simp [packHeader]

theorem packHeader_append_bytes (s a f l c : Nat) (data : List Nat)
    (hl : l ≤ 1000) (hc : c < 65536) (hb : ∀ x ∈ data, x < 256) :
    ∀ x ∈ packHeader s a f l c ++ data, x < 256 := by
  intro x hx
  rcases List.mem_append.mp hx with h | h
  · have h255 : ∀ y : Nat, y &&& 0xFF < 256 := by
      intro y
      have := Nat.and_pow_two_sub_one_eq_mod y 8
      norm_num at this
      omega
    simp only [packHeader, List.mem_cons, List.not_mem_nil, or_false] at h
    rcases h with rfl | rfl | rfl | rfl | rfl | rfl | rfl
    · exact h255 s
    · exact h255 a
    · exact h255 f
    · omega
    · omega
    · omega
    · omega
  · exact hb x h

/-- `validate_packet` on a well-formed header-plus-payload buffer reduces to
the checksum comparison: the length checks pass, the stored checksum is the
big-endian recomposition of bytes 5 and 6, and the recomputed checksum is
taken over the buffer with a zeroed checksum field. -/
theorem validate_packet_header_append (s a f l c : Nat) (data : List Nat)
    (hl : data.length = l) :
    validate_packet (packHeader s a f l c ++ data) =
      if calculate (packHeader s a f l 0 ++ data) ≠ c / 256 * 256 + c % 256 then
        (false, "Checksum mismatch: expected " ++ hex4 (c / 256 * 256 + c % 256)
          ++ ", got " ++ hex4 (calculate (packHeader s a f l 0 ++ data)))
      else (true, "") := by
  simp only [validate_packet]
  have h1 : ¬ ((packHeader s a f l c ++ data).length < 7) := by
    rw [packHeader_append_length]; omega
  rw [if_neg h1]
  have h2 : (packHeader s a f l c ++ data).getD 3 0 * 256
      + (packHeader s a f l c ++ data).getD 4 0 = l := by
    show l / 256 * 256 + l % 256 = l
    omega
  rw [h2]
  have h3 : ¬ ((packHeader s a f l c ++ data).length ≠ 7 + l) := by
    rw [packHeader_append_length]; omega
  rw [if_neg h3]
  have h4 : (packHeader s a f l c ++ data).take 5 ++ [0, 0]
      ++ (packHeader s a f l c ++ data).drop 7 = packHeader s a f l 0 ++ data := rfl
  rw [h4]
  rfl

/-- C1: for every header field choice and every payload `B` of at most 1000
bytes, `validate_packet (create_packet seq ack flags B)` returns
`(True, "")`, and flipping any single bit at any byte position `≥ 7` of the
encoded packet (i.e. in the payload) makes `validate_packet` return `False`. -/
theorem C1_checksum_roundtrip_and_bitflip (seq ack flags : Nat) (data : List Nat)
    (hb : ∀ x ∈ data, x < 256) (hlen : data.length ≤ 1000) :
    ∃ p, create_packet seq ack flags data = Except.ok p ∧
      validate_packet p = (true, "") ∧
      ∀ pos k, 7 ≤ pos → pos < p.length → k < 8 →
        (validate_packet (flipBit p pos k)).fst = false := by
  set l := data.length with hldef
  set ck := calculate (packHeader seq ack flags l 0 ++ data) with hck
  refine ⟨packHeader seq ack flags l ck ++ data, ?_, ?_, ?_⟩
  · unfold create_packet
    rw [if_neg (by omega)]
  · rw [validate_packet_header_append seq ack flags l ck data rfl]
    rw [if_neg (by omega :
      ¬ (ck ≠ ck / 256 * 256 + ck % 256))]
  · intro pos k hpos7 hposlen hk
    obtain ⟨i, rfl⟩ : ∃ i, pos = 7 + i := ⟨pos - 7, by omega⟩
    have hi : i < data.length := by
      rw [packHeader_append_length] at hposlen; omega
    rw [flipBit, getD_append_seven, set_append_seven]
    rw [validate_packet_header_append seq ack flags l ck _ (by rw [List.length_set])]
    have hckeq : ck / 256 * 256 + ck % 256 = ck := by omega
    rw [hckeq]
    have hflip : packHeader seq ack flags l 0 ++ data.set i (data.getD i 0 ^^^ 1 <<< k)
        = flipBit (packHeader seq ack flags l 0 ++ data) (7 + i) k := by
      rw [flipBit, getD_append_seven, set_append_seven]
    rw [hflip]
    rw [if_pos (by
      rw [hck]
      exact calculate_flip_ne _
        (packHeader_append_bytes seq ack flags l 0 data (by omega) (by omega) hb)
        (7 + i) (by rw [packHeader_append_length]; omega) k hk)]

theorem C1_checksum_roundtrip_and_bitflip_witness :
    ∃ p, create_packet 0 0 8 [72, 105] = Except.ok p ∧
      validate_packet p = (true, "") ∧
      ∀ pos k, 7 ≤ pos → pos < p.length → k < 8 →
        (validate_packet (flipBit p pos k)).fst = false :=
  C1_checksum_roundtrip_and_bitflip 0 0 8 [72, 105] (by decide) (by decide)

/-- Reference definition written from the spec's words (§4.1): split the
padded input into 16-bit big-endian words. -/
def toWords : List Nat → List Nat
  | [] => []
  | [a] => [a * 256]
  | a :: b :: rest => (a * 256 + b) :: toWords rest

/-- Reference definition written from the spec's words (§4.1): "repeatedly add
the high 16 bits of the accumulator back into the low 16 bits until no
overflow remains". -/
def foldCarrySpec (s : Nat) : Nat :=
  if h : s < 65536 then s else foldCarrySpec (s % 65536 + s / 65536)
termination_by s
decreasing_by omega

/-- Reference definition written from the spec's words (§4.1): the
one's-complement (bitwise NOT) of a 16-bit quantity. -/
def onesComplement16 (s : Nat) : Nat := 2 ^ 16 - 1 - s

/-- Reference checksum written from the spec's words (§4.1): pad odd-length
input with one trailing zero byte, sum the 16-bit big-endian words, fold the
carry end-around, complement the final 16-bit sum. -/
def calculateSpec (data : List Nat) : Nat :=
  onesComplement16 (foldCarrySpec
    (toWords (if 2 ∣ data.length then data else data ++ [0])).sum)

theorem wordSum_eq_toWords_sum (l : List Nat) (hb : ∀ x ∈ l, x < 256) :
    wordSum l = (toWords l).sum := by
  induction l using wordSum.induct with
  | case1 => rfl
  | case2 a =>
    show a <<< 8 = a * 256 + 0
    rw [Nat.shiftLeft_eq]
    norm_num
  | case3 a b rest ih =>
    rw [wordSum_cons a b rest (hb b (by simp)), toWords, List.sum_cons,
      ih (fun x hx => hb x (by simp [hx]))]

theorem foldCarryAux_eq_foldCarrySpec (fuel : Nat) :
    ∀ s, s ≤ fuel → foldCarryAux fuel s = foldCarrySpec s := by
  induction fuel with
  | zero =>
    intro s hs
    rw [foldCarryAux, foldCarrySpec, dif_pos (by omega)]
  | succ fuel ih =>
    intro s hs
    rw [foldCarryAux]
    split
    · next h =>
      have h2 : s &&& 0xFFFF = s % 2 ^ 16 := Nat.and_pow_two_sub_one_eq_mod s 16
      simp only [Nat.shiftRight_eq_div_pow] at h
      rw [foldCarrySpec, dif_neg (by omega)]
      rw [ih _ (by rw [h2]; simp only [Nat.shiftRight_eq_div_pow]; omega)]
      congr 1
      rw [h2]
      simp only [Nat.shiftRight_eq_div_pow]
      norm_num
    · next h =>
      simp only [Nat.shiftRight_eq_div_pow] at h
      rw [foldCarrySpec, dif_pos (by omega)]

theorem foldCarry_eq_foldCarrySpec (s : Nat) : foldCarry s = foldCarrySpec s :=
  foldCarryAux_eq_foldCarrySpec s s (Nat.le_refl s)

/-- C2: `InternetChecksum.calculate` is a total function on byte sequences
(empty and odd-length included), agrees with the spec's reference definition
(pad, big-endian word sum, end-around carry fold, one's complement), and
always yields a value below `2^16`. -/
theorem C2_calculate_matches_reference (data : List Nat) (hb : ∀ x ∈ data, x < 256) :
    calculate data = calculateSpec data ∧ calculate data < 2 ^ 16 := by
  constructor
  · unfold calculate calculateSpec
    have hpad : (if data.length % 2 = 1 then data ++ [0] else data)
        = (if 2 ∣ data.length then data else data ++ [0]) := by
      by_cases h : data.length % 2 = 1
      · rw [if_pos h, if_neg (by omega)]
      · rw [if_neg h, if_pos (by omega)]
    rw [hpad]
    set d := if 2 ∣ data.length then data else data ++ [0] with hd
    have hdb : ∀ x ∈ d, x < 256 := by
      rw [hd]; split
      · exact hb
      · intro x hx
        rcases List.mem_append.mp hx with h | h
        · exact hb x h
        · simp at h; omega
    rw [wordSum_eq_toWords_sum d hdb, foldCarry_eq_foldCarrySpec]
    unfold pyNot16 onesComplement16
    have hle : foldCarrySpec (toWords d).sum ≤ 65535 := by
      rw [← foldCarry_eq_foldCarrySpec, ← wordSum_eq_toWords_sum d hdb]
      exact foldCarry_le _
    omega
  · exact calculate_lt data

theorem C2_calculate_matches_reference_witness :
    calculate [1, 2, 3] = calculateSpec [1, 2, 3] ∧ calculate [1, 2, 3] < 2 ^ 16 :=
  C2_calculate_matches_reference [1, 2, 3] (by decide)

theorem length_pos_append (s t : String) (hs : 0 < s.length) : 0 < (s ++ t).length := by
  rw [String.length_append]
  omega

theorem string_append_ne_empty (s t : String) (hs : 0 < s.length) : s ++ t ≠ "" := by
  intro h
  have h2 := congrArg String.length h
  rw [String.length_append] at h2
  rw [show String.length "" = 0 from rfl] at h2
  omega

/-- C3: `parse_packet` fails exactly on inputs shorter than 7 bytes or whose
byte count after the 7-byte header differs from the declared length field; on
every other input it returns the decoded fields — including the stored
checksum, which it never verifies (the success case holds for arbitrary
checksum bytes). -/
theorem C3_parse_packet_failure_conditions (p : List Nat) :
    (p.length < 7 →
      parse_packet p = Except.error ("Packet too short: " ++ toString p.length ++ " < 7")) ∧
    (7 ≤ p.length → (p.drop 7).length ≠ p.getD 3 0 * 256 + p.getD 4 0 →
      parse_packet p = Except.error ("Data length mismatch: expected "
        ++ toString (p.getD 3 0 * 256 + p.getD 4 0) ++ ", got "
        ++ toString (p.drop 7).length)) ∧
    (7 ≤ p.length → (p.drop 7).length = p.getD 3 0 * 256 + p.getD 4 0 →
      parse_packet p = Except.ok (p.getD 0 0, p.getD 1 0, p.getD 2 0,
        p.getD 3 0 * 256 + p.getD 4 0, p.drop 7, p.getD 5 0 * 256 + p.getD 6 0)) := by
  refine ⟨?_, ?_, ?_⟩
  · intro h
    simp only [parse_packet]
    rw [if_pos h]
  · intro h1 h2
    simp only [parse_packet]
    rw [if_neg (by omega), if_pos h2]
  · intro h1 h2
    simp only [parse_packet]
    rw [if_neg (by omega), if_neg (by omega)]

theorem C3_parse_packet_failure_conditions_witness :
    parse_packet [1, 2, 3, 0, 1, 99, 77, 65] = Except.ok (1, 2, 3, 1, [65], 25421) :=
  (C3_parse_packet_failure_conditions [1, 2, 3, 0, 1, 99, 77, 65]).2.2
    (by decide) (by decide)

/-- C4: `validate_packet` is a total function into boolean-plus-reason pairs —
on every byte sequence it yields either `(true, "")` or `false` with a
nonempty reason string — and malformed input (truncated buffer, length-field
mismatch) is reported through exactly that in-band result, never as a fault. -/
theorem C4_validate_total_bool_plus_reason (p : List Nat) :
    (validate_packet p = (true, "") ∨
      ((validate_packet p).fst = false ∧ (validate_packet p).snd ≠ "")) ∧
    (p.length < 7 →
      validate_packet p = (false, "Packet too short: " ++ toString p.length ++ " bytes")) ∧
    (7 ≤ p.length → p.length ≠ 7 + (p.getD 3 0 * 256 + p.getD 4 0) →
      validate_packet p = (false, "Length mismatch: packet " ++ toString p.length
        ++ " vs expected " ++ toString (7 + (p.getD 3 0 * 256 + p.getD 4 0)))) := by
  refine ⟨?_, ?_, ?_⟩
  · simp only [validate_packet]
    split_ifs with h1 h2 h3
    · exact Or.inr ⟨rfl, string_append_ne_empty _ _
        (length_pos_append _ _ (by decide))⟩
    · exact Or.inr ⟨rfl, string_append_ne_empty _ _
        (length_pos_append _ _ (length_pos_append _ _ (by decide)))⟩
    · exact Or.inr ⟨rfl, string_append_ne_empty _ _
        (length_pos_append _ _ (length_pos_append _ _ (by decide)))⟩
    · exact Or.inl rfl
  · intro h
    simp only [validate_packet]
    rw [if_pos h]
  · intro h1 h2
    simp only [validate_packet]
    rw [if_neg (by omega), if_pos h2]

theorem C4_validate_total_bool_plus_reason_witness :
    validate_packet ([] : List Nat) = (false, "Packet too short: 0 bytes") :=
  (C4_validate_total_bool_plus_reason []).2.1 (by decide)

/-- `SequenceNumberManager` state: the `modulo` configured at construction and
the current sequence number.  Values are Python ints; `%` on possibly-negative
operands with a positive modulus is `Int.emod`. -/
structure SequenceNumberManager where
  modulo : Int
  seq_num : Int

def SequenceNumberManager.init (modulo : Int) : SequenceNumberManager :=
  { modulo := modulo, seq_num := 0 }

def SequenceNumberManager.get_current (s : SequenceNumberManager) : Int :=
  s.seq_num

def SequenceNumberManager.increment (s : SequenceNumberManager) : SequenceNumberManager :=
  { s with seq_num := (s.seq_num + 1) % s.modulo }

def SequenceNumberManager.reset (s : SequenceNumberManager) : SequenceNumberManager :=
  { s with seq_num := 0 }

def SequenceNumberManager.is_expected (s : SequenceNumberManager)
    (received_seq : Int) : Bool :=
  received_seq == s.seq_num

def SequenceNumberManager.is_duplicate (s : SequenceNumberManager)
    (received_seq : Int) : Bool :=
  received_seq == (s.seq_num - 1) % s.modulo

/-- The two mutating operations of `SequenceNumberManager`. -/
inductive SeqOp where
  | inc : SeqOp
  | reset : SeqOp

def applySeqOps : List SeqOp → SequenceNumberManager → SequenceNumberManager
  | [], s => s
  | SeqOp.inc :: rest, s => applySeqOps rest s.increment
  | SeqOp.reset :: rest, s => applySeqOps rest s.reset

theorem applySeqOps_reachable (ops : List SeqOp) (s : SequenceNumberManager)
    (hm : s.modulo = 2) (hs : s.seq_num = 0 ∨ s.seq_num = 1) :
    (applySeqOps ops s).modulo = 2 ∧
      ((applySeqOps ops s).seq_num = 0 ∨ (applySeqOps ops s).seq_num = 1) := by
  induction ops generalizing s with
  | nil => exact ⟨hm, hs⟩
  | cons op rest ih =>
    cases op with
    | inc =>
      refine ih s.increment hm ?_
      unfold SequenceNumberManager.increment
      rw [hm]
      rcases hs with h | h <;> rw [h] <;> simp
    | reset => exact ih s.reset hm (Or.inl rfl)

/-- C5: with `modulo = 2`, in every state reachable from the initial manager
by `increment`/`reset` and for every received value in `{0, 1}`, exactly one
of `is_expected` and `is_duplicate` holds; the current and previous values are
distinct and together are exactly `{0, 1}`. -/
theorem C5_alternating_bit_partition (ops : List SeqOp) (received : Int)
    (hr : received = 0 ∨ received = 1) :
    ((applySeqOps ops (SequenceNumberManager.init 2)).is_expected received
        = !(applySeqOps ops (SequenceNumberManager.init 2)).is_duplicate received) ∧
    (applySeqOps ops (SequenceNumberManager.init 2)).seq_num
        ≠ ((applySeqOps ops (SequenceNumberManager.init 2)).seq_num - 1)
            % (applySeqOps ops (SequenceNumberManager.init 2)).modulo ∧
    ((applySeqOps ops (SequenceNumberManager.init 2)).seq_num = 0 ∧
        ((applySeqOps ops (SequenceNumberManager.init 2)).seq_num - 1)
          % (applySeqOps ops (SequenceNumberManager.init 2)).modulo = 1 ∨
      (applySeqOps ops (SequenceNumberManager.init 2)).seq_num = 1 ∧
        ((applySeqOps ops (SequenceNumberManager.init 2)).seq_num - 1)
          % (applySeqOps ops (SequenceNumberManager.init 2)).modulo = 0) := by
  obtain ⟨hm, hs⟩ := applySeqOps_reachable ops (SequenceNumberManager.init 2) rfl
    (Or.inl rfl)
  set t := applySeqOps ops (SequenceNumberManager.init 2)
  unfold SequenceNumberManager.is_expected SequenceNumberManager.is_duplicate
  rw [hm]
  rcases hs with h | h <;> rw [h] <;> rcases hr with rfl | rfl <;> decide

theorem C5_alternating_bit_partition_witness :
    ((applySeqOps [SeqOp.inc] (SequenceNumberManager.init 2)).is_expected 1
        = !(applySeqOps [SeqOp.inc] (SequenceNumberManager.init 2)).is_duplicate 1) ∧
    (applySeqOps [SeqOp.inc] (SequenceNumberManager.init 2)).seq_num
        ≠ ((applySeqOps [SeqOp.inc] (SequenceNumberManager.init 2)).seq_num - 1)
            % (applySeqOps [SeqOp.inc] (SequenceNumberManager.init 2)).modulo ∧
    ((applySeqOps [SeqOp.inc] (SequenceNumberManager.init 2)).seq_num = 0 ∧
        ((applySeqOps [SeqOp.inc] (SequenceNumberManager.init 2)).seq_num - 1)
          % (applySeqOps [SeqOp.inc] (SequenceNumberManager.init 2)).modulo = 1 ∨
      (applySeqOps [SeqOp.inc] (SequenceNumberManager.init 2)).seq_num = 1 ∧
        ((applySeqOps [SeqOp.inc] (SequenceNumberManager.init 2)).seq_num - 1)
          % (applySeqOps [SeqOp.inc] (SequenceNumberManager.init 2)).modulo = 0) :=
  C5_alternating_bit_partition [SeqOp.inc] 1 (Or.inr rfl)

/-- `TimeoutManager` state.  Python floats are modelled as exact rationals;
the per-instance constants `min_timeout = 0.1`, `max_timeout = 30.0`,
`max_samples = 50` set in `__init__` and never mutated are modelled as the
definitions below. -/
structure TimeoutManager where
  initial_timeout : ℚ
  current_timeout : ℚ
  rtt_samples : List ℚ

def min_timeout : ℚ := 1 / 10

def max_timeout : ℚ := 30

def max_samples : Nat := 50

def TimeoutManager.init (initial_timeout : ℚ) : TimeoutManager :=
  { initial_timeout := initial_timeout, current_timeout := initial_timeout,
    rtt_samples := [] }

/-- `TimeoutManager._update_timeout`, parameterised by the interpretation
`sqrtA` of Python's `** 0.5`: no-op on an empty window, otherwise set
`current_timeout` to `clamp(avg + 4 * stddev, min_timeout, max_timeout)` with
`stddev` the square root of the population variance of the window. -/
def TimeoutManager.update_timeout (sqrtA : ℚ → ℚ) (s : TimeoutManager) :
    TimeoutManager :=
  if s.rtt_samples = [] then s
  else
    let n : ℚ := s.rtt_samples.length
    let avg_rtt := s.rtt_samples.sum / n
    let std_dev := sqrtA ((s.rtt_samples.map (fun x => (x - avg_rtt) ^ 2)).sum / n)
    let new_timeout := avg_rtt + 4 * std_dev
    { s with current_timeout := max min_timeout (min max_timeout new_timeout) }

/-- `TimeoutManager.record_rtt`: append the sample, evict the oldest
(`pop(0)`) once the window exceeds `max_samples`, then recompute the
timeout. -/
def TimeoutManager.record_rtt (sqrtA : ℚ → ℚ) (rtt : ℚ) (s : TimeoutManager) :
    TimeoutManager :=
  let appended := s.rtt_samples ++ [rtt]
  let window := if appended.length > max_samples then appended.drop 1 else appended
  TimeoutManager.update_timeout sqrtA { s with rtt_samples := window }

def TimeoutManager.get_timeout (s : TimeoutManager) : ℚ :=
  s.current_timeout

def TimeoutManager.on_retransmission (s : TimeoutManager) : TimeoutManager :=
  { s with current_timeout := min (s.current_timeout * 2) max_timeout }

def TimeoutManager.on_successful_ack (s : TimeoutManager) : TimeoutManager :=
  { s with current_timeout := max (s.current_timeout * (9 / 10)) min_timeout }

/-- The three mutating operations of `TimeoutManager`. -/
inductive TimeoutOp where
  | record (rtt : ℚ) : TimeoutOp
  | retransmission : TimeoutOp
  | ack : TimeoutOp

def applyTimeoutOps (sqrtA : ℚ → ℚ) : List TimeoutOp → TimeoutManager → TimeoutManager
  | [], s => s
  | TimeoutOp.record rtt :: rest, s =>
      applyTimeoutOps sqrtA rest (TimeoutManager.record_rtt sqrtA rtt s)
  | TimeoutOp.retransmission :: rest, s =>
      applyTimeoutOps sqrtA rest s.on_retransmission
  | TimeoutOp.ack :: rest, s =>
      applyTimeoutOps sqrtA rest s.on_successful_ack

theorem update_timeout_bounds (sqrtA : ℚ → ℚ) (s : TimeoutManager)
    (hs : min_timeout ≤ s.current_timeout ∧ s.current_timeout ≤ max_timeout) :
    min_timeout ≤ (TimeoutManager.update_timeout sqrtA s).current_timeout ∧
      (TimeoutManager.update_timeout sqrtA s).current_timeout ≤ max_timeout := by
  simp only [TimeoutManager.update_timeout]
  split
  · exact hs
  · exact ⟨le_max_left _ _,
      max_le (by unfold min_timeout max_timeout; norm_num) (min_le_left _ _)⟩

theorem record_rtt_bounds (sqrtA : ℚ → ℚ) (rtt : ℚ) (s : TimeoutManager)
    (hs : min_timeout ≤ s.current_timeout ∧ s.current_timeout ≤ max_timeout) :
    min_timeout ≤ (TimeoutManager.record_rtt sqrtA rtt s).current_timeout ∧
      (TimeoutManager.record_rtt sqrtA rtt s).current_timeout ≤ max_timeout :=
  update_timeout_bounds sqrtA _ hs

theorem timeout_bounds_step (sqrtA : ℚ → ℚ) (ops : List TimeoutOp)
    (s : TimeoutManager)
    (hs : min_timeout ≤ s.current_timeout ∧ s.current_timeout ≤ max_timeout) :
    min_timeout ≤ (applyTimeoutOps sqrtA ops s).current_timeout ∧
      (applyTimeoutOps sqrtA ops s).current_timeout ≤ max_timeout := by
  induction ops generalizing s with
  | nil => exact hs
  | cons op rest ih =>
    cases op with
    | record rtt => exact ih _ (record_rtt_bounds sqrtA rtt s hs)
    | retransmission =>
      refine ih _ ?_
      simp only [TimeoutManager.on_retransmission]
      obtain ⟨h1, h2⟩ := hs
      have hmin : (0 : ℚ) < min_timeout := by unfold min_timeout; norm_num
      exact ⟨le_min (by linarith) (by unfold min_timeout max_timeout; norm_num),
        min_le_right _ _⟩
    | ack =>
      refine ih _ ?_
      simp only [TimeoutManager.on_successful_ack]
      obtain ⟨h1, h2⟩ := hs
      have hmin : (0 : ℚ) < min_timeout := by unfold min_timeout; norm_num
      exact ⟨le_max_right _ _,
        max_le (by linarith) (by unfold min_timeout max_timeout; norm_num)⟩

/-- C6: from any construction whose initial timeout respects the reference
bounds (the reference configuration constructs with 0.5), every state
reachable through `record_rtt` / `on_retransmission` / `on_successful_ack`
keeps `min_timeout ≤ current_timeout ≤ max_timeout`, so `get_timeout` is
always a bounded positive value.  This holds for every interpretation `sqrtA`
of the square root in the standard-deviation computation. -/
theorem C6_timeout_bounds_invariant (sqrtA : ℚ → ℚ) (initial : ℚ)
    (hinit : min_timeout ≤ initial ∧ initial ≤ max_timeout)
    (ops : List TimeoutOp) :
    min_timeout ≤ (applyTimeoutOps sqrtA ops (TimeoutManager.init initial)).get_timeout ∧
      (applyTimeoutOps sqrtA ops (TimeoutManager.init initial)).get_timeout ≤ max_timeout ∧
      0 < (applyTimeoutOps sqrtA ops (TimeoutManager.init initial)).get_timeout := by
  have h := timeout_bounds_step sqrtA ops (TimeoutManager.init initial) hinit
  unfold TimeoutManager.get_timeout
  refine ⟨h.1, h.2, lt_of_lt_of_le (by unfold min_timeout; norm_num) h.1⟩

theorem C6_timeout_bounds_invariant_witness :
    min_timeout ≤ (applyTimeoutOps (fun _ => 0)
        [TimeoutOp.record 1, TimeoutOp.retransmission, TimeoutOp.ack]
        (TimeoutManager.init (1 / 2))).get_timeout ∧
      (applyTimeoutOps (fun _ => 0)
        [TimeoutOp.record 1, TimeoutOp.retransmission, TimeoutOp.ack]
        (TimeoutManager.init (1 / 2))).get_timeout ≤ max_timeout ∧
      0 < (applyTimeoutOps (fun _ => 0)
        [TimeoutOp.record 1, TimeoutOp.retransmission, TimeoutOp.ack]
        (TimeoutManager.init (1 / 2))).get_timeout :=
  C6_timeout_bounds_invariant (fun _ => 0) (1 / 2) (by constructor <;> norm_num [min_timeout, max_timeout])
    [TimeoutOp.record 1, TimeoutOp.retransmission, TimeoutOp.ack]

theorem update_timeout_rtt_samples (sqrtA : ℚ → ℚ) (t : TimeoutManager) :
    (TimeoutManager.update_timeout sqrtA t).rtt_samples = t.rtt_samples := by
  simp only [TimeoutManager.update_timeout]
  split <;> rfl

theorem update_timeout_formula (sqrtA : ℚ → ℚ) (t : TimeoutManager)
    (h : t.rtt_samples ≠ []) :
    (TimeoutManager.update_timeout sqrtA t).current_timeout
      = max min_timeout (min max_timeout
          (t.rtt_samples.sum / t.rtt_samples.length
            + 4 * sqrtA ((t.rtt_samples.map
                (fun x => (x - t.rtt_samples.sum / t.rtt_samples.length) ^ 2)).sum
              / t.rtt_samples.length))) := by
  simp only [TimeoutManager.update_timeout]
  rw [if_neg h]

/-- C7: `record_rtt` keeps a FIFO window of at most the 50 most recent RTT
samples (a 51st arrival evicts the oldest), and afterwards `current_timeout`
equals the window's mean plus 4 times its population standard deviation
(`sqrtA` of the population variance), clamped into
`[min_timeout, max_timeout]`. -/
theorem C7_record_rtt_window_and_formula (sqrtA : ℚ → ℚ) (s : TimeoutManager)
    (hlen : s.rtt_samples.length ≤ 50) (rtt : ℚ) :
    (TimeoutManager.record_rtt sqrtA rtt s).rtt_samples.length ≤ 50 ∧
    (TimeoutManager.record_rtt sqrtA rtt s).rtt_samples
      = (if s.rtt_samples.length = 50 then s.rtt_samples.drop 1 else s.rtt_samples)
        ++ [rtt] ∧
    (TimeoutManager.record_rtt sqrtA rtt s).current_timeout
      = max min_timeout (min max_timeout
          ((TimeoutManager.record_rtt sqrtA rtt s).rtt_samples.sum
              / (TimeoutManager.record_rtt sqrtA rtt s).rtt_samples.length
            + 4 * sqrtA (((TimeoutManager.record_rtt sqrtA rtt s).rtt_samples.map
                (fun x => (x - (TimeoutManager.record_rtt sqrtA rtt s).rtt_samples.sum
                  / (TimeoutManager.record_rtt sqrtA rtt s).rtt_samples.length) ^ 2)).sum
              / (TimeoutManager.record_rtt sqrtA rtt s).rtt_samples.length))) := by
  have hrec : TimeoutManager.record_rtt sqrtA rtt s
      = TimeoutManager.update_timeout sqrtA
          { s with rtt_samples :=
              if (s.rtt_samples ++ [rtt]).length > max_samples
              then (s.rtt_samples ++ [rtt]).drop 1 else s.rtt_samples ++ [rtt] } := rfl
  have hwin : (TimeoutManager.record_rtt sqrtA rtt s).rtt_samples
      = (if s.rtt_samples.length = 50 then s.rtt_samples.drop 1 else s.rtt_samples)
        ++ [rtt] := by
    rw [hrec, update_timeout_rtt_samples]
    show (if (s.rtt_samples ++ [rtt]).length > max_samples
        then (s.rtt_samples ++ [rtt]).drop 1 else s.rtt_samples ++ [rtt]) = _
    by_cases h50 : s.rtt_samples.length = 50
    · rw [if_pos (by simp [max_samples]; omega), if_pos h50,
        List.drop_append_of_le_length (by omega)]
    · rw [if_neg (by simp [max_samples]; omega), if_neg h50]
  refine ⟨?_, hwin, ?_⟩
  · rw [hwin]
    split <;> simp <;> omega
  · have hne : (TimeoutManager.record_rtt sqrtA rtt s).rtt_samples ≠ [] := by
      rw [hwin]
      simp
    rw [hrec] at hne ⊢
    rw [update_timeout_rtt_samples] at hne
    rw [update_timeout_formula sqrtA _ hne, update_timeout_rtt_samples]

theorem C7_record_rtt_window_and_formula_witness :
    (TimeoutManager.record_rtt (fun _ => 0) 2
        (TimeoutManager.init (1 / 2))).rtt_samples.length ≤ 50 ∧
    (TimeoutManager.record_rtt (fun _ => 0) 2
        (TimeoutManager.init (1 / 2))).rtt_samples
      = (if (TimeoutManager.init (1 / 2)).rtt_samples.length = 50
          then (TimeoutManager.init (1 / 2)).rtt_samples.drop 1
          else (TimeoutManager.init (1 / 2)).rtt_samples) ++ [2] ∧
    (TimeoutManager.record_rtt (fun _ => 0) 2
        (TimeoutManager.init (1 / 2))).current_timeout
      = max min_timeout (min max_timeout
          ((TimeoutManager.record_rtt (fun _ => 0) 2
                (TimeoutManager.init (1 / 2))).rtt_samples.sum
              / (TimeoutManager.record_rtt (fun _ => 0) 2
                (TimeoutManager.init (1 / 2))).rtt_samples.length
            + 4 * (fun (_ : ℚ) => (0 : ℚ))
                (((TimeoutManager.record_rtt (fun _ => 0) 2
                      (TimeoutManager.init (1 / 2))).rtt_samples.map
                    (fun x => (x - (TimeoutManager.record_rtt (fun _ => 0) 2
                        (TimeoutManager.init (1 / 2))).rtt_samples.sum
                      / (TimeoutManager.record_rtt (fun _ => 0) 2
                        (TimeoutManager.init (1 / 2))).rtt_samples.length) ^ 2)).sum
              / (TimeoutManager.record_rtt (fun _ => 0) 2
                  (TimeoutManager.init (1 / 2))).rtt_samples.length))) :=
  C7_record_rtt_window_and_formula (fun _ => 0) (TimeoutManager.init (1 / 2))
    (by decide) 2

/-- C8 counterexample: after six retransmissions from the reference initial
state (0.5 s) the timeout has saturated at `max_timeout = 30`, and a further
`on_retransmission` call does not strictly increase `get_timeout` — so from
*every* state, three consecutive retransmissions do not strictly increase the
timeout each time. -/
theorem C8_backoff_counterexample :
    ¬ ((applyTimeoutOps (fun _ => 0)
          [TimeoutOp.retransmission, TimeoutOp.retransmission,
            TimeoutOp.retransmission, TimeoutOp.retransmission,
            TimeoutOp.retransmission, TimeoutOp.retransmission]
          (TimeoutManager.init (1 / 2))).get_timeout
        < (TimeoutManager.on_retransmission (applyTimeoutOps (fun _ => 0)
          [TimeoutOp.retransmission, TimeoutOp.retransmission,
            TimeoutOp.retransmission, TimeoutOp.retransmission,
            TimeoutOp.retransmission, TimeoutOp.retransmission]
          (TimeoutManager.init (1 / 2)))).get_timeout) := by
  norm_num [applyTimeoutOps, TimeoutManager.init, TimeoutManager.on_retransmission,
    TimeoutManager.get_timeout, max_timeout, min_def]
/-- C8 (amended): from every state whose current timeout `t` satisfies
`0 < t` and `4 * t < max_timeout` (in particular from the reference initial
state 0.5), three consecutive `on_retransmission` calls strictly increase
`get_timeout()` each time; and from any state whatsoever — the saturated
ones included — the result of an `on_retransmission` call never exceeds
30.0 (final conjunct, quantified over every state `u`). -/
theorem C8_backoff_strict_increase (s : TimeoutManager)
    (h0 : 0 < s.current_timeout) (h4 : s.current_timeout * 4 < max_timeout) :
    s.get_timeout < s.on_retransmission.get_timeout ∧
    s.on_retransmission.get_timeout
      < s.on_retransmission.on_retransmission.get_timeout ∧
    s.on_retransmission.on_retransmission.get_timeout
      < s.on_retransmission.on_retransmission.on_retransmission.get_timeout ∧
    s.on_retransmission.get_timeout ≤ max_timeout ∧
    s.on_retransmission.on_retransmission.get_timeout ≤ max_timeout ∧
    s.on_retransmission.on_retransmission.on_retransmission.get_timeout
      ≤ max_timeout ∧
    ∀ u : TimeoutManager, u.on_retransmission.get_timeout ≤ max_timeout := by
  simp only [TimeoutManager.get_timeout, TimeoutManager.on_retransmission,
    max_timeout] at h4 ⊢
  set c := s.current_timeout with hc
  have e1 : min (c * 2) (30 : ℚ) = c * 2 := min_eq_left (by linarith)
  rw [e1]
  have e2 : min (c * 2 * 2) (30 : ℚ) = c * 2 * 2 := min_eq_left (by linarith)
  rw [e2]
  refine ⟨by linarith, by linarith, lt_min (by linarith) (by linarith),
    by linarith, by linarith, min_le_right _ _, fun u => min_le_right _ _⟩

theorem C8_backoff_strict_increase_witness :
    (TimeoutManager.init (1 / 2)).get_timeout
      < (TimeoutManager.init (1 / 2)).on_retransmission.get_timeout ∧
    (TimeoutManager.init (1 / 2)).on_retransmission.get_timeout
      < (TimeoutManager.init (1 / 2)).on_retransmission.on_retransmission.get_timeout ∧
    (TimeoutManager.init (1 / 2)).on_retransmission.on_retransmission.get_timeout
      < (TimeoutManager.init
          (1 / 2)).on_retransmission.on_retransmission.on_retransmission.get_timeout ∧
    (TimeoutManager.init (1 / 2)).on_retransmission.get_timeout ≤ max_timeout ∧
    (TimeoutManager.init (1 / 2)).on_retransmission.on_retransmission.get_timeout
      ≤ max_timeout ∧
    (TimeoutManager.init
        (1 / 2)).on_retransmission.on_retransmission.on_retransmission.get_timeout
      ≤ max_timeout ∧
    ∀ u : TimeoutManager, u.on_retransmission.get_timeout ≤ max_timeout :=
  C8_backoff_strict_increase (TimeoutManager.init (1 / 2))
    (by norm_num [TimeoutManager.init])
    (by norm_num [TimeoutManager.init, max_timeout])

/-- `NetworkSimulator._corrupt_packet` with the two `random.randint` draws
made explicit parameters: when the draws are taken, `corrupt_pos` lies in
`[7, len(packet) - 1]` and `corrupt_bit` in `[0, 7]`; a packet of 7 bytes or
fewer skips the flip entirely. -/
def corrupt_packet (p : List Nat) (corrupt_pos corrupt_bit : Nat) : List Nat :=
  if 7 < p.length then flipBit p corrupt_pos corrupt_bit else p

/-- C10: `_corrupt_packet` changes at most one bit of one byte, only at a
byte position `≥ 7`: the length and the whole 7-byte header are preserved,
every byte other than the drawn position is unchanged, the drawn byte is
XORed with a single bit mask, and any packet of at most 7 bytes — in
particular every payload-free ACK — is returned completely unchanged. -/
theorem C10_corrupt_packet_frame (p : List Nat) (pos k : Nat)
    (h7 : 7 ≤ pos) (hk : k < 8) :
    (p.length ≤ 7 → corrupt_packet p pos k = p) ∧
    (corrupt_packet p pos k).length = p.length ∧
    (corrupt_packet p pos k).take 7 = p.take 7 ∧
    (∀ i, i ≠ pos → (corrupt_packet p pos k).getD i 0 = p.getD i 0) ∧
    (pos < p.length →
      (corrupt_packet p pos k).getD pos 0 = p.getD pos 0 ^^^ (1 <<< k)) := by
  refine ⟨?_, ?_, ?_, ?_, ?_⟩
  · intro h
    unfold corrupt_packet
    rw [if_neg (by omega)]
  · unfold corrupt_packet
    split
    · rw [flipBit, List.length_set]
    · rfl
  · unfold corrupt_packet
    split
    · rw [flipBit]
      apply List.ext_getElem?
      intro i
      rw [List.getElem?_take, List.getElem?_take]
      split
      · next hi7 => rw [List.getElem?_set_ne (by omega)]
      · rfl
    · rfl
  · intro i hi
    unfold corrupt_packet
    split
    · rw [flipBit]
      simp only [List.getD_eq_getElem?_getD]
      rw [List.getElem?_set_ne (by omega)]
    · rfl
  · intro hlt
    unfold corrupt_packet
    rw [if_pos (by omega), flipBit]
    simp only [List.getD_eq_getElem?_getD]
    rw [List.getElem?_set_self hlt]
    rw [← List.getD_eq_getElem?_getD]
    rw [List.getD_eq_getElem p 0 hlt]
    rfl

theorem C10_corrupt_packet_frame_witness :
    ((([10, 11, 12, 13, 14, 15, 16, 17] : List Nat).length ≤ 7 →
        corrupt_packet [10, 11, 12, 13, 14, 15, 16, 17] 7 0
          = [10, 11, 12, 13, 14, 15, 16, 17]) ∧
      (corrupt_packet [10, 11, 12, 13, 14, 15, 16, 17] 7 0).length
        = ([10, 11, 12, 13, 14, 15, 16, 17] : List Nat).length ∧
      (corrupt_packet [10, 11, 12, 13, 14, 15, 16, 17] 7 0).take 7
        = ([10, 11, 12, 13, 14, 15, 16, 17] : List Nat).take 7 ∧
      (∀ i, i ≠ 7 → (corrupt_packet [10, 11, 12, 13, 14, 15, 16, 17] 7 0).getD i 0
        = ([10, 11, 12, 13, 14, 15, 16, 17] : List Nat).getD i 0) ∧
      (7 < ([10, 11, 12, 13, 14, 15, 16, 17] : List Nat).length →
        (corrupt_packet [10, 11, 12, 13, 14, 15, 16, 17] 7 0).getD 7 0
          = ([10, 11, 12, 13, 14, 15, 16, 17] : List Nat).getD 7 0 ^^^ (1 <<< 0))) ∧
    corrupt_packet [0, 1, 2, 3, 4, 5, 6] 7 0 = [0, 1, 2, 3, 4, 5, 6] :=
  ⟨C10_corrupt_packet_frame [10, 11, 12, 13, 14, 15, 16, 17] 7 0
      (by decide) (by decide),
    (C10_corrupt_packet_frame [0, 1, 2, 3, 4, 5, 6] 7 0 (by decide) (by decide)).1
      (by decide)⟩

def Flags_ACK : Nat := 0x02

def Flags_DATA : Nat := 0x08

/-- `BeardownSender` state, as laid out in `BeardownSender.__init__` (which is
given in the source); `packet_sent_time` and the `now` arguments below model
`time.time()` readings as rationals supplied by the driver. -/
structure BeardownSender where
  data_buffer : List Nat
  current_offset : Nat
  total_size : Nat
  seq_manager : SequenceNumberManager
  timeout_manager : TimeoutManager
  current_packet : Option (List Nat)
  packet_sent_time : Option ℚ
  pending_ack : Bool
  current_data : List Nat

def BeardownSender.init (timeout : ℚ) : BeardownSender :=
  { data_buffer := [], current_offset := 0, total_size := 0,
    seq_manager := SequenceNumberManager.init 2,
    timeout_manager := TimeoutManager.init timeout,
    current_packet := none, packet_sent_time := none,
    pending_ack := false, current_data := [] }

/-- Modelled from the spec: `BeardownSender.load_data` is a TODO stub (`pass`)
in the source; modelled from spec §4.5 `load(data)` and the in-file hint code
(store buffer and size, reset offset and sequence manager, clear the
pending-ack flag). -/
def BeardownSender.load_data (data : List Nat) (s : BeardownSender) : BeardownSender :=
  { s with
    data_buffer := data
    total_size := data.length
    current_offset := 0
    seq_manager := s.seq_manager.reset
    pending_ack := false }

/-- Modelled from the spec: `BeardownSender._extract_data_segment` is a TODO
stub in the source; modelled from spec §4.5 ("slices up to 1000 bytes starting
at the current offset") and the in-file hint code
(`min(total_size - current_offset, MAX_PAYLOAD_SIZE)` bytes from
`data_buffer[current_offset:]`). -/
def BeardownSender.extract_data_segment (s : BeardownSender) : List Nat :=
  (s.data_buffer.drop s.current_offset).take
    (min (s.total_size - s.current_offset) 1000)

/-- Modelled from the spec: `BeardownSender._create_data_packet` is a TODO
stub in the source; modelled from the in-file hint code (a DATA packet with
the current sequence number and `ack_num = 0`). -/
def BeardownSender.create_data_packet (s : BeardownSender) (data_chunk : List Nat) :
    Except String (List Nat) :=
  create_packet s.seq_manager.get_current.toNat 0 Flags_DATA data_chunk

/-- Modelled from the spec: `BeardownSender._should_retransmit` is a TODO stub
in the source; modelled from the in-file hint code (no retransmission without
an outstanding packet or a send timestamp; otherwise compare the elapsed time
against the current timeout). -/
def BeardownSender.should_retransmit (now : ℚ) (s : BeardownSender) : Bool :=
  if s.pending_ack = false then false
  else
    match s.packet_sent_time with
    | none => false
    | some t => decide (now - t > s.timeout_manager.get_timeout)

/-- Modelled from the spec: `BeardownSender.handle_timeout` is a TODO stub in
the source; modelled from spec §4.5 (back off the timeout, restart the send
clock) and the in-file hint code; the statistics counters are bookkeeping with
no influence on behaviour and are omitted. -/
def BeardownSender.handle_timeout (now : ℚ) (s : BeardownSender) : BeardownSender :=
  { s with
    timeout_manager := s.timeout_manager.on_retransmission
    packet_sent_time := some now }

/-- Modelled from the spec: `BeardownSender.get_next_packet` is a TODO stub in
the source; modelled from spec §4.5 `next_packet_to_send()` and the in-file
hint code.  Returns the updated state together with the optional emitted
packet.  The `Except.error` branch is unreachable because extracted segments
never exceed 1000 bytes. -/
def BeardownSender.get_next_packet (now : ℚ) (s : BeardownSender) :
    BeardownSender × Option (List Nat) :=
  if BeardownSender.should_retransmit now s then
    (BeardownSender.handle_timeout now s,
      (BeardownSender.handle_timeout now s).current_packet)
  else if s.pending_ack then (s, none)
  else if s.current_offset ≥ s.total_size then (s, none)
  else
    match BeardownSender.create_data_packet s (BeardownSender.extract_data_segment s) with
    | Except.error _ => (s, none)
    | Except.ok packet =>
      ({ s with
          current_packet := some packet
          current_data := BeardownSender.extract_data_segment s
          packet_sent_time := some now
          pending_ack := true }, some packet)

/-- Modelled from the spec: `BeardownSender.process_ack` is a TODO stub in the
source; modelled from spec §4.5 `on_ack` and the in-file hint code (validate,
parse, require the ACK flag and the acknowledgment number
`(current_seq + 1) % 2`; on a match feed the RTT sample, advance sequence and
offset, clear the pending flag).  The hint's blanket `except: return False`
is the `Except.error` branch. -/
def BeardownSender.process_ack (sqrtA : ℚ → ℚ) (now : ℚ) (ack_packet : List Nat)
    (s : BeardownSender) : BeardownSender × Bool :=
  if (validate_packet ack_packet).fst = false then (s, false)
  else
    match parse_packet ack_packet with
    | Except.error _ => (s, false)
    | Except.ok (_, ack_num, flags, _, _, _) =>
      if flags &&& Flags_ACK = 0 then (s, false)
      else if (ack_num : Int) = (s.seq_manager.get_current + 1) % 2 then
        ({ s with
            timeout_manager :=
              match s.packet_sent_time with
              | some t0 => TimeoutManager.record_rtt sqrtA (now - t0) s.timeout_manager
              | none => s.timeout_manager
            seq_manager := s.seq_manager.increment
            current_offset := s.current_offset + s.current_data.length
            pending_ack := false }, true)
      else (s, false)

/-- Modelled from the spec: `BeardownSender.is_complete` is a TODO stub in the
source; modelled from the in-file hint code. -/
def BeardownSender.is_complete (s : BeardownSender) : Bool :=
  decide (s.current_offset ≥ s.total_size) && !s.pending_ack

/-- Driver-visible sender operations after a transfer is loaded: request the
next packet, deliver a (possibly adversarial) ack, or signal a timeout — the
calls the test harness makes between `load_data` and completion. -/
inductive SenderOp where
  | next (now : ℚ) : SenderOp
  | ack (now : ℚ) (packet : List Nat) : SenderOp
  | timeout (now : ℚ) : SenderOp

def applySenderOps (sqrtA : ℚ → ℚ) : List SenderOp → BeardownSender → BeardownSender
  | [], s => s
  | SenderOp.next now :: rest, s =>
      applySenderOps sqrtA rest (BeardownSender.get_next_packet now s).1
  | SenderOp.ack now pkt :: rest, s =>
      applySenderOps sqrtA rest (BeardownSender.process_ack sqrtA now pkt s).1
  | SenderOp.timeout now :: rest, s =>
      applySenderOps sqrtA rest (BeardownSender.handle_timeout now s)

/-- Invariant of the sender over a single loaded transfer: the size field
tracks the buffer; the cursor is either segment-aligned or past the end; the
last extracted segment is at most 1000 bytes and is either empty, a full
segment, stale past-the-end data, or the outstanding terminal segment; and
while a packet is outstanding it is exactly the encoding of the segment at
the current cursor. -/
def SenderInv (s : BeardownSender) : Prop :=
  s.total_size = s.data_buffer.length ∧
  (s.current_offset % 1000 = 0 ∨ s.total_size ≤ s.current_offset) ∧
  s.current_data.length ≤ 1000 ∧
  (s.current_data.length = 0 ∨ s.current_data.length = 1000 ∨
    s.total_size ≤ s.current_offset ∨
    (s.pending_ack = true ∧
      s.current_offset + s.current_data.length = s.total_size)) ∧
  (s.pending_ack = true →
    s.current_offset < s.total_size ∧
    s.current_data.length = min (s.total_size - s.current_offset) 1000 ∧
    ∃ pkt, s.current_packet = some pkt ∧
      pkt.length = 7 + s.current_data.length)

theorem extract_data_segment_length (s : BeardownSender)
    (h : s.total_size = s.data_buffer.length) :
    (BeardownSender.extract_data_segment s).length
      = min (s.total_size - s.current_offset) 1000 := by
  unfold BeardownSender.extract_data_segment
  rw [List.length_take, List.length_drop]
  omega

theorem create_data_packet_ok (s : BeardownSender) (chunk : List Nat)
    (h : chunk.length ≤ 1000) :
    ∃ pkt, BeardownSender.create_data_packet s chunk = Except.ok pkt ∧
      pkt.length = 7 + chunk.length := by
  unfold BeardownSender.create_data_packet create_packet
  rw [if_neg (by omega)]
  exact ⟨_, rfl, packHeader_append_length _ _ _ _ _ _⟩

theorem should_retransmit_pending (now : ℚ) (s : BeardownSender)
    (h : BeardownSender.should_retransmit now s = true) : s.pending_ack = true := by
  unfold BeardownSender.should_retransmit at h
  cases hb : s.pending_ack with
  | false => rw [hb] at h; simp at h
  | true => rfl

theorem SenderInv_load_init (t : ℚ) (data : List Nat) :
    SenderInv (BeardownSender.load_data data (BeardownSender.init t)) := by
  refine ⟨rfl, Or.inl rfl,
    by simp [BeardownSender.load_data, BeardownSender.init], Or.inl rfl, ?_⟩
  intro hcontra
  exact absurd hcontra (by simp [BeardownSender.load_data, BeardownSender.init])

theorem SenderInv_handle_timeout (now : ℚ) (s : BeardownSender)
    (h : SenderInv s) : SenderInv (BeardownSender.handle_timeout now s) := h

theorem SenderInv_get_next_packet (now : ℚ) (s : BeardownSender)
    (h : SenderInv s) : SenderInv (BeardownSender.get_next_packet now s).1 := by
  unfold BeardownSender.get_next_packet
  split
  · exact SenderInv_handle_timeout now s h
  · split
    · exact h
    · split
      · exact h
      · next hofs =>
        obtain ⟨h1, h2, h3, h4, h5⟩ := h
        have hlt : s.current_offset < s.total_size := by omega
        have hexlen := extract_data_segment_length s h1
        have hchunk : (BeardownSender.extract_data_segment s).length ≤ 1000 := by
          rw [hexlen]; omega
        obtain ⟨pkt, hok, hpl⟩ := create_data_packet_ok s _ hchunk
        rw [hok]
        dsimp only
        refine ⟨h1, h2, ?_, ?_, ?_⟩
        · show (BeardownSender.extract_data_segment s).length ≤ 1000
          exact hchunk
        · by_cases hc : 1000 ≤ s.total_size - s.current_offset
          · refine Or.inr (Or.inl ?_)
            show (BeardownSender.extract_data_segment s).length = 1000
            rw [hexlen]; omega
          · refine Or.inr (Or.inr (Or.inr ⟨rfl, ?_⟩))
            show s.current_offset + (BeardownSender.extract_data_segment s).length
              = s.total_size
            rw [hexlen]; omega
        · intro _
          exact ⟨hlt, hexlen, pkt, rfl, hpl⟩

theorem SenderInv_process_ack (sqrtA : ℚ → ℚ) (now : ℚ) (ack_packet : List Nat)
    (s : BeardownSender) (h : SenderInv s) :
    SenderInv (BeardownSender.process_ack sqrtA now ack_packet s).1 := by
  unfold BeardownSender.process_ack
  split
  · exact h
  · split
    · exact h
    · split
      · exact h
      · split
        · obtain ⟨h1, h2, h3, h4, h5⟩ := h
          dsimp only
          refine ⟨h1, ?_, h3, ?_, ?_⟩
          · show (s.current_offset + s.current_data.length) % 1000 = 0 ∨
              s.total_size ≤ s.current_offset + s.current_data.length
            rcases h4 with hL | hL | hT | ⟨hp, hsum⟩ <;>
              rcases h2 with h2 | h2 <;> omega
          · show s.current_data.length = 0 ∨ s.current_data.length = 1000 ∨
              s.total_size ≤ s.current_offset + s.current_data.length ∨
              (false = true ∧ s.current_offset + s.current_data.length
                + s.current_data.length = s.total_size)
            rcases h4 with hL | hL | hT | ⟨hp, hsum⟩
            · exact Or.inl hL
            · exact Or.inr (Or.inl hL)
            · exact Or.inr (Or.inr (Or.inl (by omega)))
            · exact Or.inr (Or.inr (Or.inl (by omega)))
          · intro hcontra
            exact absurd hcontra Bool.false_ne_true
        · exact h

theorem SenderInv_applySenderOps (sqrtA : ℚ → ℚ) (ops : List SenderOp)
    (s : BeardownSender) (h : SenderInv s) :
    SenderInv (applySenderOps sqrtA ops s) := by
  induction ops generalizing s with
  | nil => exact h
  | cons op rest ih =>
    cases op with
    | next now => exact ih _ (SenderInv_get_next_packet now s h)
    | ack now pkt => exact ih _ (SenderInv_process_ack sqrtA now pkt s h)
    | timeout now => exact ih _ (SenderInv_handle_timeout now s h)

theorem get_next_packet_buffer (now : ℚ) (s : BeardownSender) :
    (BeardownSender.get_next_packet now s).1.data_buffer = s.data_buffer := by
  unfold BeardownSender.get_next_packet
  split
  · rfl
  · split
    · rfl
    · split
      · rfl
      · split <;> rfl

theorem process_ack_buffer (sqrtA : ℚ → ℚ) (now : ℚ) (ack_packet : List Nat)
    (s : BeardownSender) :
    (BeardownSender.process_ack sqrtA now ack_packet s).1.data_buffer
      = s.data_buffer := by
  unfold BeardownSender.process_ack
  split
  · rfl
  · split
    · rfl
    · split
      · rfl
      · split <;> rfl

theorem applySenderOps_buffer (sqrtA : ℚ → ℚ) (ops : List SenderOp)
    (s : BeardownSender) :
    (applySenderOps sqrtA ops s).data_buffer = s.data_buffer := by
  induction ops generalizing s with
  | nil => rfl
  | cons op rest ih =>
    cases op with
    | next now => rw [applySenderOps, ih, get_next_packet_buffer]
    | ack now pkt => rw [applySenderOps, ih, process_ack_buffer]
    | timeout now => rw [applySenderOps, ih]; rfl

theorem get_next_packet_payload (now : ℚ) (s : BeardownSender) (h : SenderInv s)
    (s' : BeardownSender) (p : List Nat)
    (hrun : BeardownSender.get_next_packet now s = (s', some p)) :
    p.length - 7 ≤ 1000 ∧
    (s.total_size = 1000001 → s.current_offset + (p.length - 7) = 1000001 →
      p.length - 7 = 1) := by
  obtain ⟨h1, h2, h3, h4, h5⟩ := h
  unfold BeardownSender.get_next_packet at hrun
  split at hrun
  · next hret =>
    have hpend := should_retransmit_pending now s hret
    obtain ⟨hlt, hLlen, pkt, hcp, hpl⟩ := h5 hpend
    have hsnd : s.current_packet = some p := congrArg Prod.snd hrun
    rw [hcp] at hsnd
    have hp : pkt = p := Option.some.inj hsnd
    subst hp
    constructor
    · omega
    · intro hT hsum
      rcases h2 with h2 | h2 <;> omega
  · split at hrun
    · exact absurd hrun (by simp)
    · split at hrun
      · exact absurd hrun (by simp)
      · next hofs =>
        have hlt : s.current_offset < s.total_size := by omega
        have hexlen := extract_data_segment_length s h1
        have hchunk : (BeardownSender.extract_data_segment s).length ≤ 1000 := by
          rw [hexlen]; omega
        obtain ⟨pkt, hok, hpl⟩ := create_data_packet_ok s _ hchunk
        rw [hok] at hrun
        dsimp only at hrun
        have hp : pkt = p := Option.some.inj (congrArg Prod.snd hrun)
        subst hp
        constructor
        · omega
        · intro hT hsum
          rcases h2 with h2 | h2 <;> omega

/-- C9: for every loaded input and every sequence of driver operations, a
packet emitted by `get_next_packet` carries at most 1000 payload bytes; and
for a 1,000,001-byte input, an emitted segment that reaches the end of the
buffer (the terminal remainder segment) carries exactly 1 byte of payload.
The payload of an emitted packet `p` is `p.drop 7`, of length
`p.length - 7`. -/
theorem C9_sender_segment_size_bound (sqrtA : ℚ → ℚ) (t : ℚ) (data : List Nat)
    (ops : List SenderOp) (now : ℚ) (s' : BeardownSender) (p : List Nat)
    (hrun : BeardownSender.get_next_packet now
        (applySenderOps sqrtA ops
          (BeardownSender.load_data data (BeardownSender.init t)))
      = (s', some p)) :
    p.length - 7 ≤ 1000 ∧
    (data.length = 1000001 →
      (applySenderOps sqrtA ops
          (BeardownSender.load_data data (BeardownSender.init t))).current_offset
        + (p.length - 7) = 1000001 →
      p.length - 7 = 1) := by
  set s := applySenderOps sqrtA ops
    (BeardownSender.load_data data (BeardownSender.init t)) with hs
  have hinv : SenderInv s :=
    SenderInv_applySenderOps sqrtA ops _ (SenderInv_load_init t data)
  have hbuf : s.data_buffer = data := by
    rw [hs, applySenderOps_buffer]
    rfl
  have hmain := get_next_packet_payload now s hinv s' p hrun
  refine ⟨hmain.1, ?_⟩
  intro hT hsum
  refine hmain.2 ?_ hsum
  rw [hinv.1, hbuf]
  exact hT

theorem C9_sender_segment_size_bound_witness :
    ([0, 0, 8, 0, 1, 246, 248, 7] : List Nat).length - 7 ≤ 1000 ∧
    (([7] : List Nat).length = 1000001 →
      (applySenderOps (fun _ => 0) []
          (BeardownSender.load_data [7] (BeardownSender.init 1))).current_offset
        + (([0, 0, 8, 0, 1, 246, 248, 7] : List Nat).length - 7) = 1000001 →
      ([0, 0, 8, 0, 1, 246, 248, 7] : List Nat).length - 7 = 1) :=
  C9_sender_segment_size_bound (fun _ => 0) 1 [7] [] 1
    { data_buffer := [7]
      current_offset := 0
      total_size := 1
      seq_manager := { modulo := 2, seq_num := 0 }
      timeout_manager := { initial_timeout := 1, current_timeout := 1, rtt_samples := [] }
      current_packet := some [0, 0, 8, 0, 1, 246, 248, 7]
      packet_sent_time := some 1
      pending_ack := true
      current_data := [7] }
    [0, 0, 8, 0, 1, 246, 248, 7]
    (by rfl)
